import Mathlib

/-!
Verification of the git_ops working-copy manager (src/backend/git_ops.py).

Paths are modelled as lists of components relative to the filesystem root;
`resolvePath` models POSIX/`Path.resolve()` lexical resolution of the special
components ".", ".." and "".  The filesystem is a finite association list
from normalized absolute paths to nodes (directory, or file with size and
text).  Strings that undergo substring operations (error texts, tokens,
file contents) are modelled as `List Char`.
-/

namespace GitOps

/-- One step of lexical path resolution: "" and "." are dropped, ".."
removes the last component (a no-op at the root), anything else is kept. -/
def normComp (acc : List String) (c : String) : List String :=
  if c = "." ∨ c = "" then acc
  else if c = ".." then acc.dropLast
  else acc ++ [c]

/-- Lexical resolution of a component list, as performed by the operating
system (and by `Path.resolve` in the absence of symlinks). -/
def resolvePath (p : List String) : List String :=
  p.foldl normComp []

/-- A filesystem node: a directory, or a file carrying its byte size and
its decoded text content. -/
inductive Node where
  | dir : Node
  | file (size : Nat) (text : List Char) : Node
deriving DecidableEq, Repr

instance : Inhabited Node := ⟨Node.dir⟩

/-- The filesystem: an association list from normalized absolute paths
(component lists) to nodes.  The first binding for a path wins. -/
abbrev FS := List (List String × Node)

/-- Look up the node stored at path `p`. -/
def lookup (fs : FS) (p : List String) : Option Node :=
  (fs.find? (fun e => e.1 = p)).map (fun e => e.2)

/-- `Path.exists()` at a (normalized) path. -/
def pexists (fs : FS) (p : List String) : Bool :=
  (lookup fs p).isSome

/-- `shutil.rmtree`: remove the path and everything below it. -/
def rmtree (fs : FS) (p : List String) : FS :=
  fs.filter (fun e => ! p.isPrefixOf e.1)

/-- `str(Path)` for an absolute path. -/
def pathStr (p : List String) : List Char :=
  (p.foldl (fun a c => a ++ "/" ++ c) "").data

/-- Worker for `splitPath`: split a character list at every `'/'`. -/
def splitPathAux : List Char → List Char → List String
  | [], acc => [String.mk acc.reverse]
  | c :: rest, acc =>
    if c = '/' then String.mk acc.reverse :: splitPathAux rest []
    else splitPathAux rest (c :: acc)

/-- Splitting an externally supplied sub-path string into components, as
`pathlib` does when joining with `/` (the semantics of
`str.split('/')`). -/
def splitPath (s : String) : List String :=
  splitPathAux s.data []

/-- The substring test `sub in s` used by the identifier sanitization. -/
def containsSub (sub : String) (s : String) : Bool :=
  decide (sub.data <:+: s.data)

/-- `any(sep in s for sep in ('/', '\\', '..'))` from `get_repo_path`. -/
def invalidComponent (s : String) : Bool :=
  containsSub "/" s || containsSub "\\" s || containsSub ".." s

/-- Embedding of `git_ops.get_repo_path` (src/backend/git_ops.py:71).
`base` is the (already absolute) `REPOS_BASE_PATH` as a component list.
A raised `ValueError` is modelled as `Except.error` of its message. -/
def get_repo_path (base : List String) (user_id repo_name : String) :
    Except (List Char) (List String) :=
  if user_id = "" ∨ repo_name = "" then
    .error "Invalid user_id or repo_name".data
  else if invalidComponent user_id then
    .error ("Invalid user_id: ".data ++ user_id.data)
  else if invalidComponent repo_name then
    .error ("Invalid repo_name: ".data ++ repo_name.data)
  else
    let base_path := resolvePath base
    let repo_path := resolvePath (base_path ++ [user_id, repo_name])
    if base_path.isPrefixOf repo_path then .ok repo_path
    else .error "Path traversal detected".data

/-- A path strictly inside a root, following the spec words: the root is a
proper ancestor.  (The code itself only checks `is_relative_to`, which
also accepts equality.) -/
def StrictlyWithin (p root : List String) : Prop :=
  root <+: p ∧ p ≠ root


/-- Worker for `replaceAll`, structurally recursive on a fuel argument
(the fuel never runs out when it starts at the length of the text). -/
def replaceAllGo (pat rep : List Char) : Nat → List Char → List Char
  | 0, s => s
  | _ + 1, [] => []
  | fuel + 1, c :: s' =>
    if pat ≠ [] ∧ pat.isPrefixOf (c :: s') then
      rep ++ replaceAllGo pat rep fuel ((c :: s').drop pat.length)
    else
      c :: replaceAllGo pat rep fuel s'

/-- Python `str.replace(pat, rep)` for a nonempty pattern: greedy
left-to-right replacement of non-overlapping occurrences.  (For an empty
pattern the function is never invoked by the code below.) -/
def replaceAll (s pat rep : List Char) : List Char :=
  replaceAllGo pat rep s.length s

/-- The token scrub in the failure branch of `clone_repo`
(src/backend/git_ops.py:214):
`str(e).replace(access_token, "***") if access_token else str(e)`. -/
def sanitizeError (msg token : List Char) : List Char :=
  if token = [] then msg else replaceAll msg token "***".data

/-- Result dictionary of `clone_repo`. -/
structure CloneResult where
  status : String
  path : Option (List String)
  message : List Char
deriving DecidableEq, Repr

/-- Oracle for the external `Repo.clone_from` transport: it either
succeeds or raises `GitCommandError`, in both cases possibly having
written entries into the filesystem. -/
inductive CloneOutcome where
  | ok (written : FS)
  | err (msg : List Char) (written : FS)

/-- `mkdir(exist_ok=True)` for a single directory. -/
def ensureDir (fs : FS) (p : List String) : FS :=
  if pexists fs p then fs else fs ++ [(p, Node.dir)]

/-- `path.mkdir(parents=True, exist_ok=True)`: create the directory and
all of its ancestors. -/
def mkdirParents (fs : FS) (p : List String) : FS :=
  (List.range (p.length + 1)).foldl (fun acc i => ensureDir acc (p.take i)) fs

/-- Embedding of `git_ops.clone_repo` (src/backend/git_ops.py:127).  The
external transport is the oracle `outcome`; entries written by the
transport shadow older bindings by being prepended.  A `ValueError`
raised by `get_repo_path` propagates and is modelled as `Except.error`. -/
def clone_repo (fs : FS) (base : List String) (clone_url : List Char)
    (access_token : List Char) (user_id repo_name : String)
    (outcome : CloneOutcome) : Except (List Char) (CloneResult × FS) :=
  match get_repo_path base user_id repo_name with
  | .error e => .error e
  | .ok repo_path =>
    if pexists fs repo_path && pexists fs (repo_path ++ [".git"]) then
      .ok ({ status := "exists", path := some repo_path,
             message := "Repository already cloned at ".data ++
               pathStr repo_path }, fs)
    else
      let fs1 := mkdirParents fs repo_path.dropLast
      let _auth_url := replaceAll clone_url "https://".data
        ("https://".data ++ access_token ++ "@".data)
      match outcome with
      | .ok written =>
        .ok ({ status := "success", path := some repo_path,
               message := "Repository cloned successfully".data },
             written ++ fs1)
      | .err msg written =>
        let fs2 := written ++ fs1
        let fs3 := if pexists fs2 repo_path then rmtree fs2 repo_path else fs2
        .ok ({ status := "error", path := none,
               message := "Clone failed: ".data ++
                 sanitizeError msg access_token }, fs3)

/-- Embedding of `git_ops.is_cloned` (src/backend/git_ops.py:436). -/
def is_cloned (fs : FS) (base : List String) (user_id repo_name : String) :
    Except (List Char) Bool :=
  match get_repo_path base user_id repo_name with
  | .error e => .error e
  | .ok repo_path =>
    .ok (pexists fs repo_path && pexists fs (repo_path ++ [".git"]))

/-- Result dictionary of `pull_repo`. -/
structure PullResult where
  status : String
  message : List Char
deriving DecidableEq, Repr

/-- Oracle for `origin.pull()`. -/
inductive PullOutcome where
  | ok
  | gitErr (msg : List Char)

/-- Embedding of `git_ops.pull_repo` (src/backend/git_ops.py:222).
`Except.error` models an exception escaping the function: the
`ValueError` from `get_repo_path`, or the `InvalidGitRepositoryError`
raised by `Repo(repo_path)` when the directory exists without a `.git`
control directory — the function only catches `GitCommandError`.  The
working copy is assumed to have an `origin` remote whenever it is a
valid clone. -/
def pull_repo (fs : FS) (base : List String) (user_id repo_name : String)
    (outcome : PullOutcome) : Except String PullResult :=
  match get_repo_path base user_id repo_name with
  | .error _ => .error "ValueError"
  | .ok repo_path =>
    if pexists fs repo_path = false then
      .ok { status := "error", message := "Repository not cloned".data }
    else if pexists fs (repo_path ++ [".git"]) = false then
      .error "InvalidGitRepositoryError"
    else
      match outcome with
      | .ok =>
        .ok { status := "success",
              message := "Repository updated successfully".data }
      | .gitErr m =>
        .ok { status := "error", message := "Pull failed: ".data ++ m }

/-- `str.lower()` of a Python string, characterwise (ASCII case). -/
def lowerS (s : String) : List Char :=
  s.data.map Char.toLower

/-- `str.lower()` of an already exploded text. -/
def lowerL (s : List Char) : List Char :=
  s.map Char.toLower

/-- Code-point lexicographic string comparison (Python `<=` on str). -/
def lexLe : List Char → List Char → Bool
  | [], _ => true
  | _ :: _, [] => false
  | a :: as, b :: bs =>
    decide (a.toNat < b.toNat) || (decide (a.toNat = b.toNat) && lexLe as bs)

/-- One entry of a directory listing. -/
structure FileEntry where
  name : String
  ftype : String
  size : Option Nat
  rpath : List String
deriving DecidableEq, Repr

/-- First component of the Python sort key
`(x["type"] != "directory", x["name"].lower())`. -/
def dirRank (e : FileEntry) : Bool :=
  e.ftype != "directory"

/-- Comparison by the Python sort key, tuples ordered lexicographically
with `False < True` on the first component. -/
def entryLe (a b : FileEntry) : Bool :=
  (!dirRank a && dirRank b) ||
    ((dirRank a == dirRank b) && lexLe (lowerS a.name) (lowerS b.name))

def entryLeP (a b : FileEntry) : Prop :=
  entryLe a b = true

instance : DecidableRel entryLeP := fun a b =>
  inferInstanceAs (Decidable (entryLe a b = true))

/-- Result dictionary of `list_files`. -/
structure LsResult where
  status : String
  message : Option (List Char)
  path : Option String
  files : List FileEntry
deriving DecidableEq, Repr

/-- Embedding of `git_ops.list_files` (src/backend/git_ops.py:275).  The
sub-path is joined to the repository path without re-resolution or
validation, exactly as in the source.  The operating system resolves the
joined path lexically when checking existence and when iterating, while
`relative_to(repo_path)` and the entry paths are computed from the
unresolved joined path.  Iterating a file raises `NotADirectoryError`,
which the catch-all handler turns into an error dictionary.  Python's
stable `list.sort` is modelled by insertion sort on the same key. -/
def list_files (fs : FS) (base : List String) (user_id repo_name : String)
    (subpath : String) : Except (List Char) LsResult :=
  match get_repo_path base user_id repo_name with
  | .error e => .error e
  | .ok repo_path =>
    let sub := if subpath = "" then [] else splitPath subpath
    let target := repo_path ++ sub
    let rtarget := resolvePath target
    if pexists fs repo_path = false then
      .ok { status := "error", message := some "Repository not cloned".data,
            path := none, files := [] }
    else if pexists fs rtarget = false then
      .ok { status := "error", message := some "Path not found".data,
            path := none, files := [] }
    else
      match lookup fs rtarget with
      | some (Node.file _ _) =>
        .ok { status := "error", message := some "NotADirectoryError".data,
              path := none, files := [] }
      | _ =>
        let children := fs.filter (fun e =>
          decide (e.1.length = rtarget.length + 1) && rtarget.isPrefixOf e.1)
        let entries := children.filterMap (fun e =>
          let name := e.1.getLastD ""
          if ".git".data.isPrefixOf name.data then none
          else some { name := name,
                      ftype := match e.2 with
                               | Node.dir => "directory"
                               | Node.file _ _ => "file",
                      size := match e.2 with
                              | Node.dir => none
                              | Node.file sz _ => some sz,
                      rpath := sub ++ [name] })
        .ok { status := "success", message := none,
              path := some (if subpath = "" then "/" else subpath),
              files := List.insertionSort entryLeP entries }

/-- `s.strip()`: remove leading and trailing whitespace. -/
def stripChars (s : List Char) : List Char :=
  ((s.dropWhile (fun c => c.isWhitespace)).reverse.dropWhile
    (fun c => c.isWhitespace)).reverse

/-- `s.split('\n')[0]`. -/
def firstLine (s : List Char) : List Char :=
  s.takeWhile (fun c => c ≠ '\n')

/-- `commit.message.strip().split('\n')[0]`. -/
def firstLineStrip (msg : List Char) : List Char :=
  firstLine (stripChars msg)

/-- A branch or remote ref as exposed by the git library: ref name,
head-commit hash and head-commit message. -/
structure GRef where
  rname : String
  sha : List Char
  msg : List Char
deriving DecidableEq, Repr

/-- A configured remote with its refs; ref names carry the remote
prefix, e.g. `origin/feature`. -/
structure GRemote where
  name : String
  refs : List GRef
deriving DecidableEq, Repr

/-- The git repository state seen by `get_branches`: local branches,
remotes, active branch, detached-HEAD flag.  The initial fetch only
refreshes remote refs (and may fail silently), so the state is taken
post-fetch. -/
structure GRepo where
  branches : List GRef
  remotes : List GRemote
  active : String
  headDetached : Bool
deriving DecidableEq, Repr

/-- One entry of the branch listing. -/
structure BranchInfo where
  name : String
  btype : String
  isCurrent : Bool
  sha : List Char
  msg : List Char
deriving DecidableEq, Repr

/-- Result dictionary of `get_branches`. -/
structure BranchesResult where
  status : String
  message : Option (List Char)
  current : Option String
  total : Nat
  branches : List BranchInfo
deriving DecidableEq, Repr

/-- Everything after the first `'/'`, when there is one. -/
def afterFirstSlash : List Char → Option (List Char)
  | [] => none
  | c :: rest => if c = '/' then some rest else afterFirstSlash rest

/-- `ref.name.split('/', 1)[1] if '/' in ref.name else ref.name`. -/
def remoteShortName (s : String) : String :=
  match afterFirstSlash s.data with
  | some rest => String.mk rest
  | none => s

/-- The body of the remote-ref loop of `get_branches`: skip `HEAD` refs,
strip the remote prefix, and append a remote entry unless the short
name already appears as a local or as a remote entry. -/
def addRemoteRef (acc : List BranchInfo) (ref : GRef) : List BranchInfo :=
  if "/HEAD".data.isSuffixOf ref.rname.data then acc
  else
    let branch_name := remoteShortName ref.rname
    if acc.any (fun b => b.name == branch_name && b.btype == "local") then
      acc
    else if acc.any (fun b =>
        b.name == branch_name && b.btype == "remote") then
      acc
    else
      acc ++ [{ name := branch_name, btype := "remote", isCurrent := false,
                sha := ref.sha.take 7, msg := firstLineStrip ref.msg }]

/-- Embedding of `git_ops.get_branches` (src/backend/git_ops.py:739).
The whole body runs inside a catch-all handler, so a directory without a
control directory yields an error dictionary (the rendered
`InvalidGitRepositoryError`), not a raised exception.  The silent fetch
has no effect on the modelled state. -/
def get_branches (fs : FS) (base : List String) (user_id repo_name : String)
    (repo : GRepo) : Except (List Char) BranchesResult :=
  match get_repo_path base user_id repo_name with
  | .error e => .error e
  | .ok repo_path =>
    if pexists fs repo_path = false then
      .ok { status := "error", message := some "Repository not cloned".data,
            current := none, total := 0, branches := [] }
    else if pexists fs (repo_path ++ [".git"]) = false then
      .ok { status := "error",
            message := some "InvalidGitRepositoryError".data,
            current := none, total := 0, branches := [] }
    else
      let current_branch : Option String :=
        if repo.headDetached then none else some repo.active
      let localEntries := repo.branches.map (fun b =>
        { name := b.rname, btype := "local",
          isCurrent := decide (some b.rname = current_branch),
          sha := b.sha.take 7, msg := firstLineStrip b.msg })
      let branches := repo.remotes.foldl
        (fun acc rem => rem.refs.foldl addRemoteRef acc) localEntries
      .ok { status := "success", message := none, current := current_branch,
            total := branches.length, branches := branches }

/-- The branch state seen by `checkout_branch`: local branches with
their optional upstream ref, the short names of the branches on the
`origin` remote, and the active branch. -/
structure CoRepo where
  locals : List (String × Option String)
  originBranches : List String
  active : String
deriving DecidableEq, Repr

/-- Result dictionary of `checkout_branch` (the error dictionaries carry
no current branch). -/
structure CheckoutResult where
  status : String
  message : List Char
  current : Option String
deriving DecidableEq, Repr

/-- `git checkout -b name origin/name`: fails when the local branch
already exists or the remote ref is missing; otherwise creates the
local tracking branch and switches to it. -/
def gitCheckoutTrack (st : CoRepo) (branch_name : String) :
    Except (List Char) CoRepo :=
  if (st.locals.map Prod.fst).contains branch_name then
    .error ("fatal: a branch named '".data ++ branch_name.data ++
      "' already exists".data)
  else if st.originBranches.contains branch_name then
    .ok { locals := st.locals ++
            [(branch_name, some ("origin/" ++ branch_name))],
          originBranches := st.originBranches, active := branch_name }
  else
    .error ("fatal: 'origin/".data ++ branch_name.data ++
      "' is not a commit".data)

/-- Plain `git checkout name`: switches to an existing local branch, or
(the DWIM rule) creates a tracking branch when the single `origin`
remote has the name; otherwise fails with a pathspec error. -/
def gitCheckout (st : CoRepo) (branch_name : String) :
    Except (List Char) CoRepo :=
  if (st.locals.map Prod.fst).contains branch_name then
    .ok { locals := st.locals, originBranches := st.originBranches,
          active := branch_name }
  else if st.originBranches.contains branch_name then
    .ok { locals := st.locals ++
            [(branch_name, some ("origin/" ++ branch_name))],
          originBranches := st.originBranches, active := branch_name }
  else
    .error ("error: pathspec '".data ++ branch_name.data ++
      "' did not match any file(s) known to git".data)

/-- Embedding of `git_ops.checkout_branch` (src/backend/git_ops.py:848).
A `GitCommandError` from a checkout is caught and rendered as
`"Checkout failed: ..."`; any other exception (such as the
invalid-repository error when `.git` is missing) is caught by the
catch-all handler and rendered as its message.  On success the reported
current branch is the repository's active branch after the switch. -/
def checkout_branch (fs : FS) (base : List String)
    (user_id repo_name : String) (st : CoRepo) (branch_name : String) :
    Except (List Char) (CheckoutResult × CoRepo) :=
  match get_repo_path base user_id repo_name with
  | .error e => .error e
  | .ok repo_path =>
    if pexists fs repo_path = false then
      .ok ({ status := "error", message := "Repository not cloned".data,
             current := none }, st)
    else if pexists fs (repo_path ++ [".git"]) = false then
      .ok ({ status := "error",
             message := "InvalidGitRepositoryError".data,
             current := none }, st)
    else if (st.locals.map Prod.fst).contains branch_name then
      match gitCheckout st branch_name with
      | .ok st' =>
        .ok ({ status := "success",
               message := "Switched to branch '".data ++
                 branch_name.data ++ "'".data,
               current := some st'.active }, st')
      | .error e =>
        .ok ({ status := "error",
               message := "Checkout failed: ".data ++ e,
               current := none }, st)
    else
      match gitCheckoutTrack st branch_name with
      | .ok st' =>
        .ok ({ status := "success",
               message := "Switched to branch '".data ++
                 branch_name.data ++ "'".data,
               current := some st'.active }, st')
      | .error _ =>
        match gitCheckout st branch_name with
        | .ok st' =>
          .ok ({ status := "success",
                 message := "Switched to branch '".data ++
                   branch_name.data ++ "'".data,
                 current := some st'.active }, st')
        | .error e =>
          .ok ({ status := "error",
                 message := "Checkout failed: ".data ++ e,
                 current := none }, st)

/-- The binary-extension denylist `BINARY_EXTENSIONS`. -/
def BINARY_EXTENSIONS : List String :=
  [".png", ".jpg", ".jpeg", ".gif", ".ico", ".pdf", ".zip", ".tar", ".gz",
   ".exe", ".dll", ".so", ".dylib", ".woff", ".woff2", ".ttf", ".eot",
   ".mp3", ".mp4", ".avi", ".mov", ".webm", ".wav", ".pyc", ".o", ".a"]

/-- Index of the last `'.'` in a name, scanning left to right. -/
def rfindDotAux : List Char → Nat → Option Nat → Option Nat
  | [], _, best => best
  | c :: rest, i, best =>
    rfindDotAux rest (i + 1) (if c = '.' then some i else best)

/-- `PurePath.suffix` of a final component: the last extension with its
dot, empty for dotless names, leading-dot names and trailing dots. -/
def pathSuffix (name : String) : String :=
  match rfindDotAux name.data 0 none with
  | some i =>
    if 0 < i ∧ i < name.data.length - 1 then String.mk (name.data.drop i)
    else ""
  | none => ""

/-- `str.lower()` keeping the String type. -/
def lowerStr (s : String) : String :=
  String.mk (lowerS s)

/-- One search result; `line` is 1-based for content matches. -/
structure SearchHit where
  htype : String
  path : List String
  name : String
  mtch : List Char
  line : Option Nat
  context : Option (List Char)
deriving DecidableEq, Repr

/-- Result dictionary of `search_files`. -/
structure SearchResult where
  status : String
  message : Option (List Char)
  query : Option (List Char)
  total : Nat
  results : List SearchHit
deriving DecidableEq, Repr

/-- `content.split('\n')`. -/
def splitLinesAux : List Char → List Char → List (List Char)
  | [], acc => [acc.reverse]
  | c :: rest, acc =>
    if c = '\n' then acc.reverse :: splitLinesAux rest []
    else splitLinesAux rest (c :: acc)

def splitLines (s : List Char) : List (List Char) :=
  splitLinesAux s []

/-- `hay.find(needle)` for the case in which the needle occurs. -/
def indexOfInfix (hay needle : List Char) : Nat :=
  match hay with
  | [] => 0
  | c :: rest =>
    if needle.isPrefixOf (c :: rest) then 0
    else indexOfInfix rest needle + 1

/-- The context snippet of a content match: the stripped line when it is
short, otherwise a window of about 50 characters on each side of the
first match, marked with ellipses where truncated.  `q` is the lowered
query. -/
def mkContext (line q : List Char) : List Char :=
  let context := stripChars line
  if context.length ≤ 200 then context
  else
    let idx := indexOfInfix (lowerL line) q
    let start := idx - 50
    let stop := min line.length (idx + q.length + 50)
    (if 0 < start then "...".data else []) ++
      stripChars ((line.drop start).take (stop - start)) ++
      (if stop < line.length then "...".data else [])

/-- The content-scan loop of `search_files`: one `content` result per
matching line, stopping at the result cap.  `query` is the original
query (the `match` field), `qlow` its lowered form. -/
def scanLines (query qlow : List Char) (relPath : List String)
    (filename : String) (maxResults : Nat) :
    List (List Char) → Nat → List SearchHit → List SearchHit
  | [], _, results => results
  | line :: rest, lineNum, results =>
    if maxResults ≤ results.length then results
    else if decide (qlow <:+: lowerL line) then
      scanLines query qlow relPath filename maxResults rest (lineNum + 1)
        (results ++ [{ htype := "content", path := relPath,
                       name := filename, mtch := query,
                       line := some lineNum,
                       context := some (mkContext line qlow) }])
    else
      scanLines query qlow relPath filename maxResults rest
        (lineNum + 1) results

/-- The file-walk loop of `search_files` over the `rglob("*")` output:
skip anything under the control directory and directories; emit one
`filename` result when the filename matches (and skip the content);
otherwise scan the content of non-binary files. -/
def searchWalk (query qlow : List Char) (search_content : Bool)
    (maxResults : Nat) (repo_path : List String) :
    List (List String × Node) → List SearchHit → List SearchHit
  | [], results => results
  | (p, node) :: rest, results =>
    if maxResults ≤ results.length then results
    else if p.contains ".git" then
      searchWalk query qlow search_content maxResults repo_path rest results
    else
      match node with
      | Node.dir =>
        searchWalk query qlow search_content maxResults repo_path rest
          results
      | Node.file _ text =>
        let relative_path := p.drop repo_path.length
        let filename := p.getLastD ""
        if decide (qlow <:+: lowerS filename) then
          searchWalk query qlow search_content maxResults repo_path rest
            (results ++ [{ htype := "filename", path := relative_path,
                           name := filename, mtch := filename.data,
                           line := none, context := none }])
        else if search_content &&
            !(BINARY_EXTENSIONS.contains (lowerStr (pathSuffix filename)))
            then
          searchWalk query qlow search_content maxResults repo_path rest
            (scanLines query qlow relative_path filename maxResults
              (splitLines text) 1 results)
        else
          searchWalk query qlow search_content maxResults repo_path rest
            results

/-- Embedding of `git_ops.search_files` (src/backend/git_ops.py:506).
The `rglob("*")` traversal is the filesystem's entries strictly below
the repository root, in their stored order. -/
def search_files (fs : FS) (base : List String) (user_id repo_name : String)
    (query : String) (search_content : Bool) (max_results : Nat) :
    Except (List Char) SearchResult :=
  match get_repo_path base user_id repo_name with
  | .error e => .error e
  | .ok repo_path =>
    if pexists fs repo_path = false then
      .ok { status := "error", message := some "Repository not cloned".data,
            query := none, total := 0, results := [] }
    else
      let query_lower := lowerS query
      let walk := fs.filter (fun e =>
        repo_path.isPrefixOf e.1 && decide (e.1 ≠ repo_path))
      let results := searchWalk query.data query_lower search_content
        max_results repo_path walk []
      .ok { status := "success", message := none, query := some query.data,
            total := results.length, results := results }

/-- Number of results of a given type for a given path. -/
def hitCount (l : List SearchHit) (t : String) (p : List String) : Nat :=
  (l.filter (fun x => x.htype == t && decide (x.path = p))).length

/-- The `filename`-type result record emitted for a matching file. -/
def mkFilenameHit (rp p : List String) : SearchHit :=
  { htype := "filename", path := p.drop rp.length, name := p.getLastD "",
    mtch := (p.getLastD "").data, line := none, context := none }

-- ============================ Theorems ============================

/-- A component that is none of ".", "" and ".." is pushed verbatim. -/
theorem normComp_plain (acc : List String) (c : String)
    (h1 : ¬ (c = "." ∨ c = "")) (h2 : c ≠ "..") :
    normComp acc c = acc ++ [c] := by
  simp [normComp, h1, h2]

/-- Folding over a list of plain components appends it verbatim. -/
theorem foldl_normComp_plain :
    ∀ (l : List String) (acc : List String),
      (∀ c ∈ l, ¬ (c = "." ∨ c = "" ∨ c = "..")) →
      List.foldl normComp acc l = acc ++ l := by
  intro l
  induction l with
  | nil => intro acc _; simp
  | cons c l ih =>
    intro acc h
    have hc := h c (by simp)
    have hrest : ∀ x ∈ l, ¬ (x = "." ∨ x = "" ∨ x = "..") := by
      intro x hx; exact h x (by simp [hx])
    simp only [List.foldl_cons]
    rw [normComp_plain acc c (by tauto) (by tauto), ih (acc ++ [c]) hrest]
    simp

/-- Every component of a resolved path is plain. -/
theorem mem_foldl_normComp_plain :
    ∀ (l : List String) (acc : List String),
      (∀ c ∈ acc, ¬ (c = "." ∨ c = "" ∨ c = "..")) →
      ∀ c ∈ List.foldl normComp acc l, ¬ (c = "." ∨ c = "" ∨ c = "..") := by
  intro l
  induction l with
  | nil => intro acc h; simpa using h
  | cons x l ih =>
    intro acc h
    simp only [List.foldl_cons]
    apply ih
    intro c hc
    unfold normComp at hc
    split at hc
    · exact h c hc
    · split at hc
      · exact h c (List.dropLast_sublist acc |>.subset hc)
      · rcases List.mem_append.mp hc with h' | h'
        · exact h c h'
        · simp only [List.mem_singleton] at h'
          subst h'
          tauto

theorem mem_resolvePath_plain (p : List String) :
    ∀ c ∈ resolvePath p, ¬ (c = "." ∨ c = "" ∨ c = "..") :=
  mem_foldl_normComp_plain p [] (by simp)

/-- Path resolution is idempotent. -/
theorem resolvePath_idem (p : List String) :
    resolvePath (resolvePath p) = resolvePath p := by
  have h := foldl_normComp_plain (resolvePath p) [] (mem_resolvePath_plain p)
  simpa [resolvePath] using h

/-- A sanitized identifier is not the parent-directory component. -/
theorem valid_ne_dotdot (s : String) (h : invalidComponent s = false) :
    s ≠ ".." := by
  intro he
  subst he
  simp [invalidComponent, containsSub, List.infix_refl] at h

/-- CLAIM C2 (counterexample): the pair `(".", ".")` is accepted — neither
component is empty or contains a separator or ".." — yet the returned
repository path is the storage root itself, so the result does not lie
strictly within the storage root. -/
theorem get_repo_path_dot_dot_counterexample :
    get_repo_path ["repos"] "." "." = Except.ok ["repos"] ∧
      ¬ StrictlyWithin ["repos"] ["repos"] := by
  constructor
  · rfl
  · intro h
    exact h.2 rfl

/-- CLAIM C2 (amended): `get_repo_path` rejects, with the corresponding
raised `ValueError` and without consulting the filesystem (the function is
a pure function of the identifiers), every pair in which a component is
empty or contains `/`, `\\` or `..`; and every accepted pair yields a path
that lies within the storage root (the resolved storage root is a
componentwise ancestor, though possibly equal to it). -/
theorem get_repo_path_spec (base : List String) (user_id repo_name : String) :
    ((user_id = "" ∨ repo_name = "") →
      get_repo_path base user_id repo_name =
        Except.error "Invalid user_id or repo_name".data) ∧
    (user_id ≠ "" → repo_name ≠ "" → invalidComponent user_id = true →
      get_repo_path base user_id repo_name =
        Except.error ("Invalid user_id: ".data ++ user_id.data)) ∧
    (user_id ≠ "" → repo_name ≠ "" → invalidComponent user_id = false →
      invalidComponent repo_name = true →
      get_repo_path base user_id repo_name =
        Except.error ("Invalid repo_name: ".data ++ repo_name.data)) ∧
    (user_id ≠ "" → repo_name ≠ "" → invalidComponent user_id = false →
      invalidComponent repo_name = false →
      get_repo_path base user_id repo_name =
        Except.ok (resolvePath (resolvePath base ++ [user_id, repo_name])) ∧
      resolvePath base <+:
        resolvePath (resolvePath base ++ [user_id, repo_name])) := by
  refine ⟨?_, ?_, ?_, ?_⟩
  · intro h
    simp [get_repo_path, h]
  · intro h1 h2 h3
    simp [get_repo_path, h1, h2, h3]
  · intro h1 h2 h3 h4
    simp [get_repo_path, h1, h2, h3, h4]
  · intro h1 h2 h3 h4
    have hu2 : user_id ≠ ".." := valid_ne_dotdot _ h3
    have hr2 : repo_name ≠ ".." := valid_ne_dotdot _ h4
    have hres : resolvePath (resolvePath base ++ [user_id, repo_name]) =
        normComp (normComp (resolvePath base) user_id) repo_name := by
      have hid := resolvePath_idem base
      unfold resolvePath at hid ⊢
      rw [List.foldl_append, hid]
      rfl
    have hpre : resolvePath base <+:
        resolvePath (resolvePath base ++ [user_id, repo_name]) := by
      rw [hres]
      by_cases hu : user_id = "."
      · rw [show normComp (resolvePath base) user_id = resolvePath base by
          simp [normComp, hu]]
        by_cases hr : repo_name = "."
        · simp [normComp, hr]
        · rw [normComp_plain _ _ (not_or.mpr ⟨hr, h2⟩) hr2]
          exact List.prefix_append _ _
      · rw [normComp_plain _ _ (not_or.mpr ⟨hu, h1⟩) hu2]
        by_cases hr : repo_name = "."
        · rw [show normComp (resolvePath base ++ [user_id]) repo_name =
              resolvePath base ++ [user_id] by simp [normComp, hr]]
          exact List.prefix_append _ _
        · rw [normComp_plain _ _ (not_or.mpr ⟨hr, h2⟩) hr2,
              List.append_assoc]
          exact List.prefix_append _ _
    refine ⟨?_, hpre⟩
    simp [get_repo_path, h1, h2, h3, h4, List.isPrefixOf_iff_prefix.mpr hpre]

/-- CLAIM C2 (witness). -/
theorem get_repo_path_spec_witness :
    get_repo_path ["repos"] "a/b" "r" =
        Except.error ("Invalid user_id: ".data ++ "a/b".data) ∧
    get_repo_path ["repos"] "u" "r" =
        Except.ok (resolvePath (resolvePath ["repos"] ++ ["u", "r"])) ∧
    resolvePath ["repos"] <+:
      resolvePath (resolvePath ["repos"] ++ ["u", "r"]) :=
  ⟨(get_repo_path_spec ["repos"] "a/b" "r").2.1 (by decide) (by decide)
      (by rfl),
    ((get_repo_path_spec ["repos"] "u" "r").2.2.2 (by decide) (by decide)
      (by rfl) (by rfl)).1,
    ((get_repo_path_spec ["repos"] "u" "r").2.2.2 (by decide) (by decide)
      (by rfl) (by rfl)).2⟩

theorem replaceAllGo_nil (pat rep : List Char) (f : Nat) :
    replaceAllGo pat rep f [] = [] := by
  cases f <;> rfl

theorem replaceAllGo_congr (pat rep : List Char) :
    ∀ (f g : Nat) (s : List Char), s.length ≤ f → s.length ≤ g →
      replaceAllGo pat rep f s = replaceAllGo pat rep g s := by
  intro f
  induction f with
  | zero =>
    intro g s hf _
    have hnil : s = [] := List.eq_nil_of_length_eq_zero (Nat.le_zero.mp hf)
    subst hnil
    rw [replaceAllGo_nil, replaceAllGo_nil]
  | succ f ih =>
    intro g s hf hg
    cases s with
    | nil => rw [replaceAllGo_nil, replaceAllGo_nil]
    | cons c s' =>
      cases g with
      | zero =>
        simp only [List.length_cons] at hg
        omega
      | succ g' =>
        simp only [List.length_cons] at hf hg
        by_cases hcond : pat ≠ [] ∧ pat.isPrefixOf (c :: s')
        · simp only [replaceAllGo, if_pos hcond]
          congr 1
          have hplen : 0 < pat.length := List.length_pos.mpr hcond.1
          apply ih
          · simp only [List.length_drop, List.length_cons]
            omega
          · simp only [List.length_drop, List.length_cons]
            omega
        · simp only [replaceAllGo, if_neg hcond]
          congr 1
          exact ih g' s' (by omega) (by omega)

theorem replaceAll_nil (pat rep : List Char) : replaceAll [] pat rep = [] :=
  rfl

theorem replaceAll_cons_pos (c : Char) (s' pat rep : List Char)
    (h : pat ≠ [] ∧ pat.isPrefixOf (c :: s')) :
    replaceAll (c :: s') pat rep =
      rep ++ replaceAll ((c :: s').drop pat.length) pat rep := by
  unfold replaceAll
  simp only [List.length_cons, replaceAllGo, if_pos h]
  congr 1
  have hplen : 0 < pat.length := List.length_pos.mpr h.1
  apply replaceAllGo_congr
  · simp only [List.length_drop, List.length_cons]
    omega
  · exact Nat.le_refl _

theorem replaceAll_cons_neg (c : Char) (s' pat rep : List Char)
    (h : ¬ (pat ≠ [] ∧ pat.isPrefixOf (c :: s'))) :
    replaceAll (c :: s') pat rep = c :: replaceAll s' pat rep := by
  unfold replaceAll
  simp only [List.length_cons, replaceAllGo, if_neg h]

/-- No nonempty star-free suffix `w` of the pattern occurs as a prefix of
the replaced text unless it was already a prefix of the input. -/
theorem not_prefix_replaceAll (t : List Char) (hstar : '*' ∉ t)
    (rep : List Char) (hrep : ∀ c ∈ rep, c = '*') (hrepne : rep ≠ []) :
    ∀ (s w v : List Char), t = v ++ w → w ≠ [] → ¬ w <+: s →
      ¬ w <+: replaceAll s t rep := by
  intro s
  induction s with
  | nil =>
    intro w v ht hw _ hp
    rw [replaceAll_nil] at hp
    exact hw (List.prefix_nil.mp hp)
  | cons c s' ih =>
    intro w v ht hw hnp hp
    by_cases hcond : t ≠ [] ∧ t.isPrefixOf (c :: s')
    · rw [replaceAll_cons_pos _ _ _ _ hcond] at hp
      obtain ⟨x, w', rfl⟩ : ∃ x w', w = x :: w' := by
        cases w
        · exact absurd rfl hw
        · exact ⟨_, _, rfl⟩
      obtain ⟨r0, rep', rfl⟩ : ∃ r0 rep', rep = r0 :: rep' := by
        cases rep
        · exact absurd rfl hrepne
        · exact ⟨_, _, rfl⟩
      have hx : x ∈ t := by
        rw [ht]
        exact List.mem_append.mpr (Or.inr (by simp))
      have hr0 : r0 = '*' := hrep r0 (by simp)
      rw [List.cons_append] at hp
      have hxr : x = r0 := (List.cons_prefix_cons.mp hp).1
      rw [hxr, hr0] at hx
      exact hstar hx
    · rw [replaceAll_cons_neg _ _ _ _ hcond] at hp
      obtain ⟨x, w', rfl⟩ : ∃ x w', w = x :: w' := by
        cases w
        · exact absurd rfl hw
        · exact ⟨_, _, rfl⟩
      have hxc : x = c := (List.cons_prefix_cons.mp hp).1
      subst hxc
      by_cases hw' : w' = []
      · subst hw'
        exact hnp ⟨s', rfl⟩
      · have hw'p : w' <+: replaceAll s' t rep :=
          (List.cons_prefix_cons.mp hp).2
        have hnp' : ¬ w' <+: s' := fun hq =>
          hnp (List.cons_prefix_cons.mpr ⟨rfl, hq⟩)
        exact ih w' (v ++ [x]) (by rw [ht]; simp) hw' hnp' hw'p

/-- The star-free nonempty pattern is never a prefix of the replaced text. -/
theorem not_prefix_replaceAll_self (t : List Char) (hne : t ≠ [])
    (hstar : '*' ∉ t) (rep : List Char) (hrep : ∀ c ∈ rep, c = '*')
    (hrepne : rep ≠ []) (s : List Char) :
    ¬ t <+: replaceAll s t rep := by
  intro hp
  cases s with
  | nil =>
    rw [replaceAll_nil] at hp
    exact hne (List.prefix_nil.mp hp)
  | cons c s' =>
    by_cases hcond : t ≠ [] ∧ t.isPrefixOf (c :: s')
    · rw [replaceAll_cons_pos _ _ _ _ hcond] at hp
      obtain ⟨x, t', rfl⟩ : ∃ x t', t = x :: t' := by
        cases t
        · exact absurd rfl hne
        · exact ⟨_, _, rfl⟩
      obtain ⟨r0, rep', rfl⟩ : ∃ r0 rep', rep = r0 :: rep' := by
        cases rep
        · exact absurd rfl hrepne
        · exact ⟨_, _, rfl⟩
      rw [List.cons_append] at hp
      have hxr : x = r0 := (List.cons_prefix_cons.mp hp).1
      have hr0 : r0 = '*' := hrep r0 (by simp)
      apply hstar
      rw [← hr0, ← hxr]
      simp
    · have hnt : ¬ t <+: (c :: s') := fun hq =>
        hcond ⟨hne, List.isPrefixOf_iff_prefix.mpr hq⟩
      exact not_prefix_replaceAll t hstar rep hrep hrepne (c :: s') t []
        rfl hne hnt hp

/-- A star-free nonempty word that occurs inside an all-star block followed
by a rest occurs inside the rest. -/
theorem infix_stars_right (t : List Char) (hne : t ≠ []) (hstar : '*' ∉ t) :
    ∀ (stars rest : List Char), (∀ c ∈ stars, c = '*') →
      t <:+: stars ++ rest → t <:+: rest := by
  intro stars
  induction stars with
  | nil =>
    intro rest _ h
    simpa using h
  | cons x xs ih =>
    intro rest hall h
    rw [List.cons_append] at h
    rcases List.infix_cons_iff.mp h with hpre | hinf
    · obtain ⟨y, t', rfl⟩ : ∃ y t', t = y :: t' := by
        cases t
        · exact absurd rfl hne
        · exact ⟨_, _, rfl⟩
      have hyx : y = x := (List.cons_prefix_cons.mp hpre).1
      have hx : x = '*' := hall x (by simp)
      exact absurd (show '*' ∈ y :: t' by rw [← hx, ← hyx]; simp) hstar
    · exact ih rest (fun c hc => hall c (by simp [hc])) hinf

/-- After greedy replacement of a nonempty star-free pattern by an all-star
block, the pattern no longer occurs anywhere in the text. -/
theorem not_infix_replaceAll (t : List Char) (hne : t ≠ []) (hstar : '*' ∉ t)
    (rep : List Char) (hrep : ∀ c ∈ rep, c = '*') (hrepne : rep ≠ []) :
    ∀ s, ¬ t <:+: replaceAll s t rep := by
  have H : ∀ n s, s.length = n → ¬ t <:+: replaceAll s t rep := by
    intro n
    induction n using Nat.strong_induction_on with
    | _ n ih =>
      intro s hL hinf
      cases s with
      | nil =>
        rw [replaceAll_nil] at hinf
        exact hne (List.eq_nil_of_infix_nil hinf)
      | cons c s' =>
        by_cases hcond : t ≠ [] ∧ t.isPrefixOf (c :: s')
        · rw [replaceAll_cons_pos _ _ _ _ hcond] at hinf
          have h2 := infix_stars_right t hne hstar rep _ hrep hinf
          have hlen : ((c :: s').drop t.length).length < n := by
            have hp : 0 < t.length := List.length_pos.mpr hcond.1
            simp only [List.length_cons] at hL
            simp only [List.length_drop, List.length_cons]
            omega
          exact ih _ hlen _ rfl h2
        · rw [replaceAll_cons_neg _ _ _ _ hcond] at hinf
          rcases List.infix_cons_iff.mp hinf with hpre | hinf'
          · rw [← replaceAll_cons_neg _ _ _ _ hcond] at hpre
            exact not_prefix_replaceAll_self t hne hstar rep hrep hrepne
              (c :: s') hpre
          · have hlen : s'.length < n := by
              simp only [List.length_cons] at hL
              omega
            exact ih _ hlen _ rfl hinf'
  intro s
  exact H s.length s rfl

/-- For a nonempty star-free token, the scrubbed error text never contains
the token. -/
theorem not_infix_sanitizeError (msg token : List Char) (hne : token ≠ [])
    (hstar : '*' ∉ token) : ¬ token <:+: sanitizeError msg token := by
  unfold sanitizeError
  rw [if_neg hne]
  exact not_infix_replaceAll token hne hstar "***".data (by decide) (by decide)
    msg


theorem lookup_rmtree (fs : FS) (p q : List String)
    (h : p.isPrefixOf q = true) : lookup (rmtree fs p) q = none := by
  induction fs with
  | nil => rfl
  | cons e fs ih =>
    simp only [rmtree, List.filter_cons] at ih ⊢
    by_cases hp : p.isPrefixOf e.1 = true
    · simpa [hp] using ih
    · have hne : ¬ decide (e.1 = q) = true := by
        simp only [decide_eq_true_eq]
        exact fun he => hp (he ▸ h)
      simp only [hp, Bool.not_false, if_true, lookup] at ih ⊢
      rw [@List.find?_cons_of_neg _ (fun x => decide (x.1 = q)) e _ hne]
      exact ih

theorem pexists_rmtree (fs : FS) (p q : List String)
    (h : p.isPrefixOf q = true) : pexists (rmtree fs p) q = false := by
  unfold pexists
  rw [lookup_rmtree fs p q h]
  rfl

theorem pexists_append_left (w fs : FS) (p : List String)
    (h : pexists w p = true) : pexists (w ++ fs) p = true := by
  unfold pexists lookup at h ⊢
  cases hf : w.find? (fun e => e.1 = p) with
  | none => rw [hf] at h; simp at h
  | some e => rw [List.find?_append, hf]; rfl


/-- Evaluation of `clone_repo` when the working copy already exists. -/
theorem clone_repo_exists_eq (fs : FS) (base : List String)
    (clone_url access_token : List Char) (user_id repo_name : String)
    (outcome : CloneOutcome) (rp : List String)
    (hgp : get_repo_path base user_id repo_name = Except.ok rp)
    (hc : (pexists fs rp && pexists fs (rp ++ [".git"])) = true) :
    clone_repo fs base clone_url access_token user_id repo_name outcome =
      Except.ok ({ status := "exists", path := some rp,
                   message := "Repository already cloned at ".data ++
                     pathStr rp }, fs) := by
  unfold clone_repo
  rw [hgp]
  simp only [hc, if_true]

/-- Evaluation of `clone_repo` on a successful transport. -/
theorem clone_repo_ok_eq (fs : FS) (base : List String)
    (clone_url access_token : List Char) (user_id repo_name : String)
    (written : FS) (rp : List String)
    (hgp : get_repo_path base user_id repo_name = Except.ok rp)
    (hnc : (pexists fs rp && pexists fs (rp ++ [".git"])) = false) :
    clone_repo fs base clone_url access_token user_id repo_name
        (CloneOutcome.ok written) =
      Except.ok ({ status := "success", path := some rp,
                   message := "Repository cloned successfully".data },
                 written ++ mkdirParents fs rp.dropLast) := by
  unfold clone_repo
  rw [hgp]
  simp only [hnc, Bool.false_eq_true, if_false]

/-- Evaluation of `clone_repo` on a failed transport. -/
theorem clone_repo_err_eq (fs : FS) (base : List String)
    (clone_url access_token : List Char) (user_id repo_name : String)
    (msg : List Char) (written : FS) (rp : List String)
    (hgp : get_repo_path base user_id repo_name = Except.ok rp)
    (hnc : (pexists fs rp && pexists fs (rp ++ [".git"])) = false) :
    clone_repo fs base clone_url access_token user_id repo_name
        (CloneOutcome.err msg written) =
      Except.ok ({ status := "error", path := none,
                   message := "Clone failed: ".data ++
                     sanitizeError msg access_token },
                 if pexists (written ++ mkdirParents fs rp.dropLast) rp
                 then rmtree (written ++ mkdirParents fs rp.dropLast) rp
                 else written ++ mkdirParents fs rp.dropLast) := by
  unfold clone_repo
  rw [hgp]
  simp only [hnc, Bool.false_eq_true, if_false]


/-- CLAIM C3 (counterexample): with access token `"**"` and git error text
`"fatal: **"`, the transport failure message returned by `clone_repo`
still contains the token value: replacing each occurrence of `"**"` by
the placeholder `"***"` re-creates the token inside the placeholder, so
the claim that no result message ever contains the token is false. -/
theorem clone_token_in_message_counterexample :
    clone_repo [] ["repos"] "https://github.com/u/r.git".data "**".data
        "u" "r" (CloneOutcome.err "fatal: **".data []) =
      Except.ok ({ status := "error", path := none,
                   message := "Clone failed: fatal: ***".data },
        [([], Node.dir), (["repos"], Node.dir), (["repos", "u"], Node.dir)]) ∧
      "**".data <:+: "Clone failed: fatal: ***".data :=
  ⟨by rfl, by decide⟩

/-- CLAIM C3 (amended): on a transport failure, every occurrence of the
access token in the git error text is replaced with the placeholder
`"***"` before the Failed result is returned: the message of the result
is exactly the constant prefix `"Clone failed: "` followed by the
scrubbed error text, and for every nonempty token that does not contain
the character `'*'` the scrubbed error text no longer contains the token.
(The token can still occur in the full message only via the constant
prefix or across its boundary, and an empty token or a token containing
`'*'` can survive the scrub, as the counterexample shows.) -/
theorem clone_failure_message_scrubbed (fs : FS) (base : List String)
    (clone_url access_token : List Char) (user_id repo_name : String)
    (msg : List Char) (written : FS) (res : CloneResult) (fs' : FS)
    (h : clone_repo fs base clone_url access_token user_id repo_name
        (CloneOutcome.err msg written) = Except.ok (res, fs'))
    (hst : res.status = "error")
    (hne : access_token ≠ []) (hstar : '*' ∉ access_token) :
    res.message = "Clone failed: ".data ++ sanitizeError msg access_token ∧
    ¬ access_token <:+: sanitizeError msg access_token := by
  refine ⟨?_, not_infix_sanitizeError msg access_token hne hstar⟩
  cases hgp : get_repo_path base user_id repo_name with
  | error e =>
    unfold clone_repo at h
    rw [hgp] at h
    exact absurd h (by simp)
  | ok rp =>
    by_cases hc : (pexists fs rp && pexists fs (rp ++ [".git"])) = true
    · rw [clone_repo_exists_eq fs base clone_url access_token user_id
        repo_name _ rp hgp hc] at h
      have h2 := Except.ok.inj h
      have h3 := congrArg (fun z => z.1.status) h2
      simp only at h3
      rw [← h3] at hst
      exact absurd hst (by decide)
    · rw [clone_repo_err_eq fs base clone_url access_token user_id
        repo_name msg written rp hgp (Bool.not_eq_true _ ▸ hc)] at h
      have h2 := Except.ok.inj h
      have h3 := congrArg (fun z => z.1.message) h2
      simpa using h3.symm

/-- CLAIM C3 (witness). -/
theorem clone_failure_message_scrubbed_witness :
    "Clone failed: boom ***".data =
        "Clone failed: ".data ++
          sanitizeError "boom ghp_secret1".data "ghp_secret1".data ∧
      ¬ "ghp_secret1".data <:+:
        sanitizeError "boom ghp_secret1".data "ghp_secret1".data :=
  ⟨by rfl, (clone_failure_message_scrubbed [] ["repos"]
    "https://github.com/u/r.git".data "ghp_secret1".data "u" "r"
    "boom ghp_secret1".data [] _ _ (by rfl) (by rfl) (by decide)
    (by decide)).2⟩

/-- CLAIM C4: a failed clone leaves no partial working copy: whenever
`clone_repo` returns a result with status `"error"`, any partially
written repository directory has been removed before returning, so a
subsequent `is_cloned` status query on the resulting filesystem reports
false. -/
theorem clone_failure_leaves_no_clone (fs : FS) (base : List String)
    (clone_url access_token : List Char) (user_id repo_name : String)
    (outcome : CloneOutcome) (res : CloneResult) (fs' : FS)
    (h : clone_repo fs base clone_url access_token user_id repo_name
        outcome = Except.ok (res, fs'))
    (hst : res.status = "error") :
    is_cloned fs' base user_id repo_name = Except.ok false := by
  cases hgp : get_repo_path base user_id repo_name with
  | error e =>
    unfold clone_repo at h
    rw [hgp] at h
    exact absurd h (by simp)
  | ok rp =>
    by_cases hc : (pexists fs rp && pexists fs (rp ++ [".git"])) = true
    · rw [clone_repo_exists_eq fs base clone_url access_token user_id
        repo_name _ rp hgp hc] at h
      have h3 := congrArg (fun z => z.1.status) (Except.ok.inj h)
      simp only at h3
      rw [← h3] at hst
      exact absurd hst (by decide)
    · have hc' : (pexists fs rp && pexists fs (rp ++ [".git"])) = false :=
        Bool.not_eq_true _ ▸ hc
      cases outcome with
      | ok written =>
        rw [clone_repo_ok_eq fs base clone_url access_token user_id
          repo_name written rp hgp hc'] at h
        have h3 := congrArg (fun z => z.1.status) (Except.ok.inj h)
        simp only at h3
        rw [← h3] at hst
        exact absurd hst (by decide)
      | err m written =>
        rw [clone_repo_err_eq fs base clone_url access_token user_id
          repo_name m written rp hgp hc'] at h
        have hfs := congrArg (fun z => z.2) (Except.ok.inj h)
        simp only at hfs
        unfold is_cloned
        rw [hgp]
        have hroot : pexists fs' rp = false := by
          rw [← hfs]
          by_cases hh :
              pexists (written ++ mkdirParents fs rp.dropLast) rp = true
          · rw [if_pos hh]
            exact pexists_rmtree _ rp rp (List.isPrefixOf_iff_prefix.mpr
              (List.prefix_refl rp))
          · rw [if_neg hh]
            exact Bool.not_eq_true _ ▸ hh
        show Except.ok (pexists fs' rp && pexists fs' (rp ++ [".git"])) =
          Except.ok false
        rw [hroot, Bool.false_and]

/-- CLAIM C4 (witness). -/
theorem clone_failure_leaves_no_clone_witness :
    is_cloned [([], Node.dir), (["repos"], Node.dir), (["repos", "u"],
      Node.dir)] ["repos"] "u" "r" = Except.ok false :=
  clone_failure_leaves_no_clone [] ["repos"]
    "https://github.com/u/r.git".data "tok".data "u" "r"
    (CloneOutcome.err "boom".data []) _ _ (by rfl) (by rfl)

/-- CLAIM C5: `clone_repo` is idempotent.  When the working copy does not
yet exist and the transport succeeds (writing at least the repository
directory and its `.git` control directory), the first call returns
status `"success"`; any second call on the resulting filesystem returns
status `"exists"` with the repository path, and leaves the filesystem
completely unchanged, whatever the second transport outcome would be. -/
theorem clone_idempotent (fs : FS) (base : List String)
    (clone_url access_token : List Char) (user_id repo_name : String)
    (rp : List String) (written : FS) (o2 : CloneOutcome)
    (res1 : CloneResult) (fs1 : FS)
    (hgp : get_repo_path base user_id repo_name = Except.ok rp)
    (hnc : is_cloned fs base user_id repo_name = Except.ok false)
    (hw1 : pexists written rp = true)
    (hw2 : pexists written (rp ++ [".git"]) = true)
    (h1 : clone_repo fs base clone_url access_token user_id repo_name
        (CloneOutcome.ok written) = Except.ok (res1, fs1)) :
    res1.status = "success" ∧
    clone_repo fs1 base clone_url access_token user_id repo_name o2 =
      Except.ok ({ status := "exists", path := some rp,
                   message := "Repository already cloned at ".data ++
                     pathStr rp }, fs1) := by
  have hb : (pexists fs rp && pexists fs (rp ++ [".git"])) = false := by
    unfold is_cloned at hnc
    rw [hgp] at hnc
    exact Except.ok.inj hnc
  rw [clone_repo_ok_eq fs base clone_url access_token user_id repo_name
    written rp hgp hb] at h1
  have h2 := Except.ok.inj h1
  have hres := congrArg (fun z => z.1.status) h2
  have hfs := congrArg (fun z => z.2) h2
  simp only at hres hfs
  refine ⟨hres.symm ▸ rfl, ?_⟩
  apply clone_repo_exists_eq fs1 base clone_url access_token user_id
    repo_name o2 rp hgp
  rw [← hfs]
  rw [pexists_append_left written _ rp hw1,
    pexists_append_left written _ (rp ++ [".git"]) hw2]
  rfl

/-- CLAIM C5 (witness). -/
theorem clone_idempotent_witness :
    ({ status := "success", path := some ["repos", "u", "r"],
       message := "Repository cloned successfully".data } :
        CloneResult).status = "success" ∧
    clone_repo [(["repos", "u", "r"], Node.dir),
        (["repos", "u", "r", ".git"], Node.dir), ([], Node.dir),
        (["repos"], Node.dir), (["repos", "u"], Node.dir)] ["repos"]
        "https://github.com/u/r.git".data "tok".data "u" "r"
        (CloneOutcome.ok []) =
      Except.ok ({ status := "exists", path := some ["repos", "u", "r"],
                   message := "Repository already cloned at ".data ++
                     pathStr ["repos", "u", "r"] },
        [(["repos", "u", "r"], Node.dir),
         (["repos", "u", "r", ".git"], Node.dir), ([], Node.dir),
         (["repos"], Node.dir), (["repos", "u"], Node.dir)]) :=
  clone_idempotent [] ["repos"] "https://github.com/u/r.git".data
    "tok".data "u" "r" ["repos", "u", "r"]
    [(["repos", "u", "r"], Node.dir),
     (["repos", "u", "r", ".git"], Node.dir)]
    (CloneOutcome.ok []) _ _ (by rfl) (by rfl) (by rfl) (by rfl) (by rfl)

/-- CLAIM C6 (counterexample): a working copy whose directory exists but
contains no `.git` control directory does not "exist" in the spec sense,
yet `pull_repo` does not return the tagged NotCloned result: the
`InvalidGitRepositoryError` raised by `Repo(repo_path)` propagates raw,
because only `GitCommandError` is caught. -/
theorem pull_repo_raises_counterexample :
    pull_repo [(["repos", "u", "r"], Node.dir)] ["repos"] "u" "r"
      PullOutcome.ok = Except.error "InvalidGitRepositoryError" := by
  rfl

/-- CLAIM C6 (amended): `pull_repo` returns the tagged
`"Repository not cloned"` failure exactly when the working-copy
*directory* is absent (the presence of the control directory is not part
of this check), and a `GitCommandError` raised by the pull itself is
returned as a tagged Failed result; but when the directory exists
without a control directory the invalid-repository exception propagates
raw, as the counterexample shows. -/
theorem pull_repo_failure_modes (fs : FS) (base : List String)
    (user_id repo_name : String) (rp : List String) (m : List Char)
    (o : PullOutcome)
    (hgp : get_repo_path base user_id repo_name = Except.ok rp) :
    (pexists fs rp = false →
      pull_repo fs base user_id repo_name o =
        Except.ok { status := "error",
                    message := "Repository not cloned".data }) ∧
    (pexists fs rp = true → pexists fs (rp ++ [".git"]) = true →
      pull_repo fs base user_id repo_name (PullOutcome.gitErr m) =
        Except.ok { status := "error",
                    message := "Pull failed: ".data ++ m }) := by
  constructor
  · intro h
    unfold pull_repo
    rw [hgp]
    simp only [h, if_true]
  · intro h1 h2
    unfold pull_repo
    rw [hgp]
    simp only [h1, h2]
    rfl

/-- CLAIM C6 (witness). -/
theorem pull_repo_failure_modes_witness :
    pull_repo [] ["repos"] "u" "r" PullOutcome.ok =
        Except.ok { status := "error",
                    message := "Repository not cloned".data } ∧
    pull_repo [(["repos", "u", "r"], Node.dir),
        (["repos", "u", "r", ".git"], Node.dir)] ["repos"] "u" "r"
        (PullOutcome.gitErr "merge conflict".data) =
      Except.ok { status := "error",
                  message := "Pull failed: merge conflict".data } := by
  constructor
  · exact (pull_repo_failure_modes [] ["repos"] "u" "r"
      ["repos", "u", "r"] "x".data PullOutcome.ok (by rfl)).1 (by rfl)
  · have h := (pull_repo_failure_modes
      [(["repos", "u", "r"], Node.dir),
       (["repos", "u", "r", ".git"], Node.dir)] ["repos"] "u" "r"
      ["repos", "u", "r"] "merge conflict".data PullOutcome.ok
      (by rfl)).2 (by rfl) (by rfl)
    simpa using h


theorem lexLe_total : ∀ (a b : List Char),
    lexLe a b = true ∨ lexLe b a = true := by
  intro a
  induction a with
  | nil => intro b; left; rfl
  | cons x as ih =>
    intro b
    cases b with
    | nil => right; rfl
    | cons y bs =>
      rcases Nat.lt_trichotomy x.toNat y.toNat with h | h | h
      · left; simp [lexLe, h]
      · rcases ih bs with h2 | h2
        · left; simp [lexLe, h, h2]
        · right; simp [lexLe, h.symm, h2]
      · right; simp [lexLe, h]

theorem lexLe_trans : ∀ (a b c : List Char), lexLe a b = true →
    lexLe b c = true → lexLe a c = true := by
  intro a
  induction a with
  | nil => intro b c _ _; rfl
  | cons x as ih =>
    intro b c hab hbc
    cases b with
    | nil => simp [lexLe] at hab
    | cons y bs =>
      cases c with
      | nil => simp [lexLe] at hbc
      | cons z cs =>
        simp only [lexLe, Bool.or_eq_true, Bool.and_eq_true,
          decide_eq_true_eq] at hab hbc ⊢
        rcases hab with h1 | ⟨h1, h1'⟩
        · rcases hbc with h2 | ⟨h2, h2'⟩
          · exact Or.inl (Nat.lt_trans h1 h2)
          · exact Or.inl (h2 ▸ h1)
        · rcases hbc with h2 | ⟨h2, h2'⟩
          · exact Or.inl (h1 ▸ h2)
          · exact Or.inr ⟨h1.trans h2, ih bs cs h1' h2'⟩

theorem entryLe_total (a b : FileEntry) :
    entryLe a b = true ∨ entryLe b a = true := by
  rcases lexLe_total (lowerS a.name) (lowerS b.name) with h | h <;>
    cases ha : dirRank a <;> cases hb : dirRank b <;>
      simp [entryLe, ha, hb, h]

theorem entryLe_trans (a b c : FileEntry) (h1 : entryLe a b = true)
    (h2 : entryLe b c = true) : entryLe a c = true := by
  cases ha : dirRank a <;> cases hb : dirRank b <;> cases hc : dirRank c <;>
    simp [entryLe, ha, hb, hc] at h1 h2 ⊢ <;>
    exact lexLe_trans _ _ _ h1 h2

instance : IsTotal FileEntry entryLeP :=
  ⟨fun a b => entryLe_total a b⟩

instance : IsTrans FileEntry entryLeP :=
  ⟨fun a b c h1 h2 => entryLe_trans a b c h1 h2⟩

theorem entryLe_imp (a b : FileEntry) (h : entryLe a b = true) :
    (b.ftype = "directory" → a.ftype = "directory") ∧
    (a.ftype = b.ftype → lexLe (lowerS a.name) (lowerS b.name) = true) := by
  constructor
  · intro hb
    by_contra hna
    have har : dirRank a = true := by simp [dirRank, hna]
    have hbr : dirRank b = false := by simp [dirRank, hb]
    rw [entryLe, har, hbr] at h
    simp at h
  · intro he
    have hr : dirRank a = dirRank b := by rw [dirRank, dirRank, he]
    rw [entryLe, hr] at h
    cases hb : dirRank b <;> rw [hb] at h <;> simpa using h

/-- CLAIM C9: every listing returned by `list_files` is ordered with all
directories before all files and, within each group, ascending by
case-insensitive name (error listings are empty and trivially so). -/
theorem list_files_sorted (fs : FS) (base : List String)
    (user_id repo_name : String) (subpath : String) (res : LsResult)
    (h : list_files fs base user_id repo_name subpath = Except.ok res) :
    res.files.Pairwise (fun a b =>
      (b.ftype = "directory" → a.ftype = "directory") ∧
      (a.ftype = b.ftype →
        lexLe (lowerS a.name) (lowerS b.name) = true)) := by
  unfold list_files at h
  split at h
  all_goals try simp only [] at h
  repeat' split at h
  all_goals first
    | (have he := Except.ok.inj h
       subst he
       first
         | exact List.Pairwise.nil
         | exact (List.sorted_insertionSort entryLeP _).imp
             (fun hab => entryLe_imp _ _ hab))
    | exact absurd h (by simp)

/-- CLAIM C9 (witness): the spec example — a working copy holding a
directory `dir1` and a file `file1.txt` (listed by the filesystem in the
opposite order) — is returned with `dir1` first. -/
theorem list_files_sorted_witness :
    list_files
        [(["repos"], Node.dir), (["repos", "u"], Node.dir),
         (["repos", "u", "r"], Node.dir),
         (["repos", "u", "r", ".git"], Node.dir),
         (["repos", "u", "r", "file1.txt"], Node.file 100 "x".data),
         (["repos", "u", "r", "dir1"], Node.dir)]
        ["repos"] "u" "r" "" =
      Except.ok { status := "success", message := none, path := some "/",
                  files := [
                    { name := "dir1", ftype := "directory", size := none,
                      rpath := ["dir1"] },
                    { name := "file1.txt", ftype := "file",
                      size := some 100, rpath := ["file1.txt"] }] } ∧
    List.Pairwise (fun a b =>
        (b.ftype = "directory" → a.ftype = "directory") ∧
        (a.ftype = b.ftype →
          lexLe (lowerS a.name) (lowerS b.name) = true))
      [({ name := "dir1", ftype := "directory", size := none,
          rpath := ["dir1"] } : FileEntry),
       { name := "file1.txt", ftype := "file", size := some 100,
         rpath := ["file1.txt"] }] := by
  constructor
  · rfl
  · have h := list_files_sorted
      [(["repos"], Node.dir), (["repos", "u"], Node.dir),
       (["repos", "u", "r"], Node.dir),
       (["repos", "u", "r", ".git"], Node.dir),
       (["repos", "u", "r", "file1.txt"], Node.file 100 "x".data),
       (["repos", "u", "r", "dir1"], Node.dir)]
      ["repos"] "u" "r" "" _ (by rfl)
    exact h

/-- CLAIM C1 (failing input): `list_files` joins the externally supplied
sub-path to the repository path without re-resolving or re-validating
it.  With sub-path `"../.."` the joined path resolves to the storage
root, the existence check passes, and the listing returns the
directories of *all users* — entries outside the working copy of
`("u", "r")` — so the claim that every listing operation re-validates
its sub-path and never accesses a path outside the working copy is
violated by the code (`read_file`, by contrast, performs the
`is_relative_to` check). -/
theorem list_files_traversal_bug :
    list_files
        [([], Node.dir), (["repos"], Node.dir), (["repos", "u"], Node.dir),
         (["repos", "u", "r"], Node.dir),
         (["repos", "u", "r", ".git"], Node.dir),
         (["repos", "u", "r", "a.txt"], Node.file 5 "hello".data),
         (["repos", "u2"], Node.dir),
         (["repos", "u2", "secret.txt"], Node.file 7 "secrets".data)]
        ["repos"] "u" "r" "../.." =
      Except.ok { status := "success", message := none,
                  path := some "../..",
                  files := [
                    { name := "u", ftype := "directory", size := none,
                      rpath := ["..", "..", "u"] },
                    { name := "u2", ftype := "directory", size := none,
                      rpath := ["..", "..", "u2"] }] } := by
  rfl


/-- One step of the remote-ref loop preserves: every local branch has a
`local` entry in the accumulator, and no `remote` entry carries a local
branch name. -/
theorem addRemoteRef_preserves (L : List GRef) (acc : List BranchInfo)
    (ref : GRef)
    (hloc : ∀ lb ∈ L, ∃ e ∈ acc, e.btype = "local" ∧ e.name = lb.rname)
    (hrem : ∀ b ∈ acc, b.btype = "remote" → ∀ lb ∈ L, b.name ≠ lb.rname) :
    (∀ lb ∈ L, ∃ e ∈ addRemoteRef acc ref,
        e.btype = "local" ∧ e.name = lb.rname) ∧
    (∀ b ∈ addRemoteRef acc ref, b.btype = "remote" →
        ∀ lb ∈ L, b.name ≠ lb.rname) := by
  by_cases h1 : "/HEAD".data.isSuffixOf ref.rname.data = true
  · simp only [addRemoteRef, h1, if_true]
    exact ⟨hloc, hrem⟩
  · by_cases h2 : acc.any (fun b =>
        b.name == remoteShortName ref.rname && b.btype == "local") = true
    · simp only [addRemoteRef, h1, h2, Bool.false_eq_true, if_false,
        if_true]
      exact ⟨hloc, hrem⟩
    · by_cases h3 : acc.any (fun b =>
          b.name == remoteShortName ref.rname && b.btype == "remote") = true
      · simp only [addRemoteRef, h1, h2, h3, Bool.false_eq_true, if_false,
          if_true]
        exact ⟨hloc, hrem⟩
      · simp only [addRemoteRef, h1, h2, h3, Bool.false_eq_true, if_false]
        constructor
        · intro lb hlb
          obtain ⟨e, he, he1, he2⟩ := hloc lb hlb
          exact ⟨e, List.mem_append.mpr (Or.inl he), he1, he2⟩
        · intro b hb hbt lb hlb heq
          rcases List.mem_append.mp hb with hb' | hb'
          · exact hrem b hb' hbt lb hlb heq
          · simp only [List.mem_singleton] at hb'
            subst hb'
            simp only at heq hbt
            obtain ⟨e, he, he1, he2⟩ := hloc lb hlb
            apply h2
            apply List.any_eq_true.mpr
            refine ⟨e, he, ?_⟩
            simp [he1, he2, heq]

/-- The invariant is preserved across a whole ref list. -/
theorem foldl_addRemoteRef_preserves (L : List GRef) :
    ∀ (refs : List GRef) (acc : List BranchInfo),
      (∀ lb ∈ L, ∃ e ∈ acc, e.btype = "local" ∧ e.name = lb.rname) →
      (∀ b ∈ acc, b.btype = "remote" → ∀ lb ∈ L, b.name ≠ lb.rname) →
      (∀ lb ∈ L, ∃ e ∈ refs.foldl addRemoteRef acc,
          e.btype = "local" ∧ e.name = lb.rname) ∧
      (∀ b ∈ refs.foldl addRemoteRef acc, b.btype = "remote" →
          ∀ lb ∈ L, b.name ≠ lb.rname) := by
  intro refs
  induction refs with
  | nil => intro acc hl hr; exact ⟨hl, hr⟩
  | cons ref refs ih =>
    intro acc hl hr
    simp only [List.foldl_cons]
    have h := addRemoteRef_preserves L acc ref hl hr
    exact ih _ h.1 h.2

/-- The invariant is preserved across all remotes. -/
theorem foldl_remotes_preserves (L : List GRef) :
    ∀ (rems : List GRemote) (acc : List BranchInfo),
      (∀ lb ∈ L, ∃ e ∈ acc, e.btype = "local" ∧ e.name = lb.rname) →
      (∀ b ∈ acc, b.btype = "remote" → ∀ lb ∈ L, b.name ≠ lb.rname) →
      (∀ b ∈ rems.foldl (fun acc rem => rem.refs.foldl addRemoteRef acc)
          acc, b.btype = "remote" → ∀ lb ∈ L, b.name ≠ lb.rname) := by
  intro rems
  induction rems with
  | nil => intro acc _ hr; exact hr
  | cons rem rems ih =>
    intro acc hl hr
    simp only [List.foldl_cons]
    have h := foldl_addRemoteRef_preserves L rem.refs acc hl hr
    exact ih _ h.1 h.2

/-- CLAIM C7 (counterexample): with one local branch `main` and the
single remote ref `origin/main`, the listing contains only the local
entry — the remote entry whose short name matches a local branch is
suppressed, not listed alongside it. -/
theorem get_branches_both_listed_counterexample :
    get_branches
        [(["repos"], Node.dir), (["repos", "u"], Node.dir),
         (["repos", "u", "r"], Node.dir),
         (["repos", "u", "r", ".git"], Node.dir)]
        ["repos"] "u" "r"
        { branches := [{ rname := "main", sha := "1234567890abcdef".data,
                         msg := "Initial commit".data }],
          remotes := [{ name := "origin",
                        refs := [{ rname := "origin/main",
                                   sha := "1234567890abcdef".data,
                                   msg := "Initial commit".data }] }],
          active := "main", headDetached := false } =
      Except.ok { status := "success", message := none,
                  current := some "main", total := 1,
                  branches := [{ name := "main", btype := "local",
                                 isCurrent := true,
                                 sha := "1234567".data,
                                 msg := "Initial commit".data }] } := by
  rfl

/-- CLAIM C7 (amended): in every branch listing produced by
`get_branches`, a remote branch whose short name matches an existing
local branch is suppressed — no entry of kind `remote` carries the name
of any local branch (only the local entry appears). -/
theorem get_branches_remote_suppressed (fs : FS) (base : List String)
    (user_id repo_name : String) (repo : GRepo) (res : BranchesResult)
    (h : get_branches fs base user_id repo_name repo = Except.ok res) :
    ∀ b ∈ res.branches, b.btype = "remote" →
      ∀ lb ∈ repo.branches, b.name ≠ lb.rname := by
  unfold get_branches at h
  split at h
  · exact absurd h (by simp)
  · split at h
    · have he := Except.ok.inj h
      subst he
      intro b hb
      simp at hb
    · split at h
      · have he := Except.ok.inj h
        subst he
        intro b hb
        simp at hb
      · have he := Except.ok.inj h
        subst he
        have hl : ∀ lb ∈ repo.branches,
            ∃ e ∈ repo.branches.map (fun b =>
              ({ name := b.rname, btype := "local",
                 isCurrent := decide (some b.rname =
                   if repo.headDetached then none else some repo.active),
                 sha := b.sha.take 7,
                 msg := firstLineStrip b.msg } : BranchInfo)),
              e.btype = "local" ∧ e.name = lb.rname := by
          intro lb hlb
          exact ⟨_, List.mem_map.mpr ⟨lb, hlb, rfl⟩, rfl, rfl⟩
        have hr : ∀ b ∈ repo.branches.map (fun b =>
            ({ name := b.rname, btype := "local",
               isCurrent := decide (some b.rname =
                 if repo.headDetached then none else some repo.active),
               sha := b.sha.take 7,
               msg := firstLineStrip b.msg } : BranchInfo)),
            b.btype = "remote" → ∀ lb ∈ repo.branches,
              b.name ≠ lb.rname := by
          intro b hb hbt
          obtain ⟨lb0, _, rfl⟩ := List.mem_map.mp hb
          simp at hbt
        exact foldl_remotes_preserves repo.branches repo.remotes _ hl hr

/-- CLAIM C7 (witness). -/
theorem get_branches_remote_suppressed_witness :
    ("feature" : String) ≠ "main" :=
  get_branches_remote_suppressed
    [(["repos"], Node.dir), (["repos", "u"], Node.dir),
     (["repos", "u", "r"], Node.dir),
     (["repos", "u", "r", ".git"], Node.dir)]
    ["repos"] "u" "r"
    { branches := [{ rname := "main", sha := "1234567890abcdef".data,
                     msg := "Initial commit".data }],
      remotes := [{ name := "origin",
                    refs := [{ rname := "origin/main",
                               sha := "1234567890abcdef".data,
                               msg := "Initial commit".data },
                             { rname := "origin/feature",
                               sha := "aabbccddeeff1122".data,
                               msg := "Feat".data }] }],
      active := "main", headDetached := false } _ (by rfl)
    { name := "feature", btype := "remote", isCurrent := false,
      sha := "aabbccd".data, msg := "Feat".data } (by decide) (by rfl)
    { rname := "main", sha := "1234567890abcdef".data,
      msg := "Initial commit".data } (by decide)


/-- CLAIM C8: on a valid working copy, checking out a name that is not a
local branch: if it exists as an `origin` remote branch, a local
tracking branch (upstream `origin/name`) is created and the call
succeeds with the current branch equal to the name; if it exists
neither locally nor remotely, the call fails with the tagged
branch-not-found error (`"Checkout failed: error: pathspec ..."`) and
the repository state is unchanged. -/
theorem checkout_branch_spec (fs : FS) (base : List String)
    (user_id repo_name : String) (st : CoRepo) (branch_name : String)
    (rp : List String)
    (hgp : get_repo_path base user_id repo_name = Except.ok rp)
    (hdir : pexists fs rp = true)
    (hgit : pexists fs (rp ++ [".git"]) = true)
    (hnl : (st.locals.map Prod.fst).contains branch_name = false) :
    (st.originBranches.contains branch_name = true →
      checkout_branch fs base user_id repo_name st branch_name =
        Except.ok ({ status := "success",
                     message := "Switched to branch '".data ++
                       branch_name.data ++ "'".data,
                     current := some branch_name },
                   { locals := st.locals ++
                       [(branch_name, some ("origin/" ++ branch_name))],
                     originBranches := st.originBranches,
                     active := branch_name })) ∧
    (st.originBranches.contains branch_name = false →
      checkout_branch fs base user_id repo_name st branch_name =
        Except.ok ({ status := "error",
                     message := "Checkout failed: ".data ++
                       ("error: pathspec '".data ++ branch_name.data ++
                        "' did not match any file(s) known to git".data),
                     current := none }, st)) := by
  constructor
  · intro ho
    unfold checkout_branch
    rw [hgp]
    simp only [hdir, hgit, hnl, Bool.true_eq_false, Bool.false_eq_true,
      if_false]
    simp only [gitCheckoutTrack, hnl, ho, Bool.false_eq_true, if_false,
      if_true]
  · intro ho
    unfold checkout_branch
    rw [hgp]
    simp only [hdir, hgit, hnl, Bool.true_eq_false, Bool.false_eq_true,
      if_false]
    simp only [gitCheckoutTrack, gitCheckout, hnl, ho, Bool.false_eq_true,
      if_false]

/-- CLAIM C8 (witness). -/
theorem checkout_branch_spec_witness :
    checkout_branch
        [(["repos"], Node.dir), (["repos", "u"], Node.dir),
         (["repos", "u", "r"], Node.dir),
         (["repos", "u", "r", ".git"], Node.dir)]
        ["repos"] "u" "r"
        { locals := [("main", some "origin/main")],
          originBranches := ["main", "feature"], active := "main" }
        "feature" =
      Except.ok ({ status := "success",
                   message := "Switched to branch 'feature'".data,
                   current := some "feature" },
                 { locals := [("main", some "origin/main"),
                              ("feature", some "origin/feature")],
                   originBranches := ["main", "feature"],
                   active := "feature" }) ∧
    checkout_branch
        [(["repos"], Node.dir), (["repos", "u"], Node.dir),
         (["repos", "u", "r"], Node.dir),
         (["repos", "u", "r", ".git"], Node.dir)]
        ["repos"] "u" "r"
        { locals := [("main", some "origin/main")],
          originBranches := ["main", "feature"], active := "main" }
        "ghost" =
      Except.ok ({ status := "error",
                   message :=
                     ("Checkout failed: error: pathspec 'ghost'" ++
                      " did not match any file(s) known to git").data,
                   current := none },
                 { locals := [("main", some "origin/main")],
                   originBranches := ["main", "feature"],
                   active := "main" }) := by
  constructor
  · have h := (checkout_branch_spec
      [(["repos"], Node.dir), (["repos", "u"], Node.dir),
       (["repos", "u", "r"], Node.dir),
       (["repos", "u", "r", ".git"], Node.dir)]
      ["repos"] "u" "r"
      { locals := [("main", some "origin/main")],
        originBranches := ["main", "feature"], active := "main" }
      "feature" ["repos", "u", "r"] (by rfl) (by rfl) (by rfl)
      (by rfl)).1 (by rfl)
    exact h
  · have h := (checkout_branch_spec
      [(["repos"], Node.dir), (["repos", "u"], Node.dir),
       (["repos", "u", "r"], Node.dir),
       (["repos", "u", "r", ".git"], Node.dir)]
      ["repos"] "u" "r"
      { locals := [("main", some "origin/main")],
        originBranches := ["main", "feature"], active := "main" }
      "ghost" ["repos", "u", "r"] (by rfl) (by rfl) (by rfl)
      (by rfl)).2 (by rfl)
    exact h


theorem hitCount_append (l1 l2 : List SearchHit) (t : String)
    (p : List String) :
    hitCount (l1 ++ l2) t p = hitCount l1 t p + hitCount l2 t p := by
  simp [hitCount, List.filter_append]

theorem hitCount_zero_of_path (l : List SearchHit) (t : String)
    (p : List String) (h : ∀ x ∈ l, x.path ≠ p) : hitCount l t p = 0 := by
  unfold hitCount
  rw [List.length_eq_zero]
  rw [List.filter_eq_nil_iff]
  intro x hx
  simp [h x hx]

theorem hitCount_zero_of_type (l : List SearchHit) (t : String)
    (p : List String) (h : ∀ x ∈ l, x.htype ≠ t) : hitCount l t p = 0 := by
  unfold hitCount
  rw [List.length_eq_zero]
  rw [List.filter_eq_nil_iff]
  intro x hx
  simp [h x hx]

theorem hitCount_singleton_pos (x : SearchHit) (t : String)
    (p : List String) (h1 : x.htype = t) (h2 : x.path = p) :
    hitCount [x] t p = 1 := by
  simp [hitCount, h1, h2]

theorem exists_of_hitCount_pos (l : List SearchHit) (t : String)
    (p : List String) (h : 1 ≤ hitCount l t p) :
    ∃ x ∈ l, x.htype = t ∧ x.path = p := by
  unfold hitCount at h
  cases hf : l.filter (fun x => x.htype == t && decide (x.path = p)) with
  | nil => rw [hf] at h; simp at h
  | cons y ys =>
    have hy : y ∈ l.filter (fun x => x.htype == t && decide (x.path = p)) :=
      by rw [hf]; simp
    have := List.mem_filter.mp hy
    refine ⟨y, this.1, ?_⟩
    have h2 := this.2
    simp only [Bool.and_eq_true, beq_iff_eq, decide_eq_true_eq] at h2
    exact h2

theorem scanLines_spec (query qlow : List Char) (relPath : List String)
    (filename : String) (maxR : Nat) :
    ∀ (lines : List (List Char)) (n : Nat) (results : List SearchHit),
      ∃ δ, scanLines query qlow relPath filename maxR lines n results =
          results ++ δ ∧
        ∀ x ∈ δ, x.htype = "content" ∧ x.path = relPath := by
  intro lines
  induction lines with
  | nil =>
    intro n results
    exact ⟨[], by simp [scanLines], by simp⟩
  | cons line rest ih =>
    intro n results
    by_cases hcap : maxR ≤ results.length
    · refine ⟨[], ?_, by simp⟩
      simp [scanLines, hcap]
    · by_cases hm : decide (qlow <:+: lowerL line) = true
      · obtain ⟨δ, hδ, hall⟩ := ih (n + 1)
          (results ++ [{ htype := "content", path := relPath,
                         name := filename, mtch := query,
                         line := some n,
                         context := some (mkContext line qlow) }])
        refine ⟨{ htype := "content", path := relPath, name := filename,
                  mtch := query, line := some n,
                  context := some (mkContext line qlow) } :: δ, ?_, ?_⟩
        · rw [scanLines, if_neg hcap, if_pos hm, hδ]
          simp
        · intro x hx
          rcases List.mem_cons.mp hx with hx' | hx'
          · subst hx'
            exact ⟨rfl, rfl⟩
          · exact hall x hx'
      · obtain ⟨δ, hδ, hall⟩ := ih (n + 1) results
        refine ⟨δ, ?_, hall⟩
        rw [scanLines, if_neg hcap, if_neg hm, hδ]


theorem hitCount_cons (x : SearchHit) (l : List SearchHit) (t : String)
    (q : List String) :
    hitCount (x :: l) t q = hitCount [x] t q + hitCount l t q := by
  rw [show x :: l = [x] ++ l from rfl, hitCount_append]

/-- The file-walk loop appends results; per path: at most one `filename`
result, no `content` result when a `filename` result is present, and
(when the cap was never reached) exactly one `filename` result for each
visited matching file. -/
theorem searchWalk_spec (query qlow : List Char) (sc : Bool) (maxR : Nat)
    (rp : List String) :
    ∀ (walk : List (List String × Node)) (acc : List SearchHit),
      (walk.map (fun e => e.1.drop rp.length)).Nodup →
      ∃ δ, searchWalk query qlow sc maxR rp walk acc = acc ++ δ ∧
        (∀ x ∈ δ, ∃ e ∈ walk, x.path = e.1.drop rp.length) ∧
        (∀ q, hitCount δ "filename" q ≤ 1) ∧
        (∀ q, 1 ≤ hitCount δ "filename" q →
          hitCount δ "content" q = 0) ∧
        ((acc ++ δ).length < maxR →
          ∀ pth sz text, (pth, Node.file sz text) ∈ walk →
            ".git" ∉ pth →
            qlow <:+: lowerS (pth.getLastD "") →
            hitCount δ "filename" (pth.drop rp.length) = 1) := by
  intro walk
  induction walk with
  | nil =>
    intro acc _
    refine ⟨[], by simp [searchWalk], by simp, ?_, ?_, ?_⟩
    · intro q
      simp [hitCount]
    · intro q hq
      simp [hitCount] at hq
    · intro _ pth sz text hmem
      simp at hmem
  | cons e rest ih =>
    obtain ⟨p, node⟩ := e
    intro acc hnd
    simp only [List.map_cons, List.nodup_cons] at hnd
    obtain ⟨hnotin, hnd'⟩ := hnd
    by_cases hcap : maxR ≤ acc.length
    · refine ⟨[], by simp [searchWalk, hcap], by simp, ?_, ?_, ?_⟩
      · intro q
        simp [hitCount]
      · intro q hq
        simp [hitCount] at hq
      · intro hlen
        exfalso
        simp only [List.append_nil] at hlen
        omega
    · by_cases hgit : p.contains ".git" = true
      · obtain ⟨δ, hδ, hin, hle, hexc, hcapc⟩ := ih acc hnd'
        refine ⟨δ, ?_, ?_, hle, hexc, ?_⟩
        · simp only [searchWalk]
          rw [if_neg hcap, if_pos hgit]
          exact hδ
        · intro x hx
          obtain ⟨e, he, hp⟩ := hin x hx
          exact ⟨e, List.mem_cons_of_mem _ he, hp⟩
        · intro hlen pth sz text hmem hg hm
          rcases List.mem_cons.mp hmem with hh | hh
          · exfalso
            rw [Prod.mk.injEq] at hh
            apply hg
            rw [hh.1]
            simpa [List.contains, List.elem_iff] using hgit
          · exact hcapc hlen pth sz text hh hg hm
      · cases node with
        | dir =>
          obtain ⟨δ, hδ, hin, hle, hexc, hcapc⟩ := ih acc hnd'
          refine ⟨δ, ?_, ?_, hle, hexc, ?_⟩
          · simp only [searchWalk]
            rw [if_neg hcap, if_neg hgit]
            exact hδ
          · intro x hx
            obtain ⟨e, he, hp⟩ := hin x hx
            exact ⟨e, List.mem_cons_of_mem _ he, hp⟩
          · intro hlen pth sz text hmem hg hm
            rcases List.mem_cons.mp hmem with hh | hh
            · exfalso
              rw [Prod.mk.injEq] at hh
              exact absurd hh.2 (by simp)
            · exact hcapc hlen pth sz text hh hg hm
        | file sz0 text0 =>
          by_cases hm : decide (qlow <:+: lowerS (p.getLastD "")) = true
          · obtain ⟨δ, hδ, hin, hle, hexc, hcapc⟩ := ih
              (acc ++ [mkFilenameHit rp p]) hnd'
            have hnin : ∀ (t : String),
                hitCount δ t (p.drop rp.length) = 0 := by
              intro t
              apply hitCount_zero_of_path
              intro x hx
              obtain ⟨e, he, hp⟩ := hin x hx
              rw [hp]
              intro hc
              apply hnotin
              rw [← hc]
              exact List.mem_map.mpr ⟨e, he, rfl⟩
            refine ⟨mkFilenameHit rp p :: δ, ?_, ?_, ?_, ?_, ?_⟩
            · simp only [searchWalk]
              rw [if_neg hcap, if_neg hgit, if_pos hm]
              show searchWalk query qlow sc maxR rp rest
                  (acc ++ [mkFilenameHit rp p]) =
                acc ++ (mkFilenameHit rp p :: δ)
              rw [hδ]
              simp
            · intro x hx
              rcases List.mem_cons.mp hx with hx' | hx'
              · subst hx'
                exact ⟨(p, Node.file sz0 text0), List.mem_cons_self _ _,
                  rfl⟩
              · obtain ⟨e, he, hp⟩ := hin x hx'
                exact ⟨e, List.mem_cons_of_mem _ he, hp⟩
            · intro q
              rw [hitCount_cons]
              by_cases hq : q = p.drop rp.length
              · subst hq
                rw [hnin]
                simp [hitCount, mkFilenameHit]
              · rw [hitCount_zero_of_path [mkFilenameHit rp p] _ _ ?_]
                · simpa using hle q
                · intro x hx
                  rw [List.mem_singleton] at hx
                  subst hx
                  exact fun hc => hq hc.symm
            · intro q hq1
              rw [hitCount_cons] at hq1 ⊢
              have hct1 : hitCount [mkFilenameHit rp p] "content" q = 0 := by
                apply hitCount_zero_of_type
                intro x hx
                rw [List.mem_singleton] at hx
                subst hx
                simp [mkFilenameHit]
              rw [hct1]
              by_cases hq : q = p.drop rp.length
              · subst hq
                rw [hnin]
              · have hf1 : hitCount [mkFilenameHit rp p] "filename" q
                    = 0 := by
                  apply hitCount_zero_of_path
                  intro x hx
                  rw [List.mem_singleton] at hx
                  subst hx
                  exact fun hc => hq hc.symm
                rw [hf1] at hq1
                simp only [Nat.zero_add] at hq1 ⊢
                exact hexc q hq1
            · intro hlen pth sz text hmem hg hmm
              have hlen' : ((acc ++ [mkFilenameHit rp p]) ++ δ).length
                  < maxR := by
                simp only [List.length_append, List.length_cons,
                  List.length_singleton, List.length_nil] at hlen ⊢
                omega
              rw [hitCount_cons]
              rcases List.mem_cons.mp hmem with hh | hh
              · rw [Prod.mk.injEq] at hh
                rw [hh.1]
                rw [hnin, hitCount_singleton_pos (mkFilenameHit rp p)
                  "filename" (p.drop rp.length) rfl rfl]
              · have hne : pth.drop rp.length ≠ p.drop rp.length := by
                  intro hc
                  apply hnotin
                  rw [← hc]
                  exact List.mem_map.mpr ⟨_, hh, rfl⟩
                have hf1 : hitCount [mkFilenameHit rp p] "filename"
                    (pth.drop rp.length) = 0 := by
                  apply hitCount_zero_of_path
                  intro x hx
                  rw [List.mem_singleton] at hx
                  subst hx
                  exact fun hc => hne hc.symm
                rw [hf1, Nat.zero_add]
                exact hcapc hlen' pth sz text hh hg hmm
          · by_cases hsc : (sc && !(BINARY_EXTENSIONS.contains
                (lowerStr (pathSuffix (p.getLastD ""))))) = true
            · obtain ⟨γ, hγ, hγall⟩ := scanLines_spec query qlow
                (p.drop rp.length) (p.getLastD "") maxR
                (splitLines text0) 1 acc
              obtain ⟨δ, hδ, hin, hle, hexc, hcapc⟩ := ih (acc ++ γ) hnd'
              have hγf : ∀ q, hitCount γ "filename" q = 0 := by
                intro q
                apply hitCount_zero_of_type
                intro x hx
                rw [(hγall x hx).1]
                decide
              refine ⟨γ ++ δ, ?_, ?_, ?_, ?_, ?_⟩
              · simp only [searchWalk]
                rw [if_neg hcap, if_neg hgit, if_neg hm, if_pos hsc, hγ,
                  hδ]
                simp
              · intro x hx
                rcases List.mem_append.mp hx with hx' | hx'
                · exact ⟨(p, Node.file sz0 text0), List.mem_cons_self _ _,
                    (hγall x hx').2⟩
                · obtain ⟨e, he, hp⟩ := hin x hx'
                  exact ⟨e, List.mem_cons_of_mem _ he, hp⟩
              · intro q
                rw [hitCount_append, hγf q, Nat.zero_add]
                exact hle q
              · intro q hq1
                rw [hitCount_append, hγf q, Nat.zero_add] at hq1
                obtain ⟨x, hx, hxt, hxp⟩ :=
                  exists_of_hitCount_pos _ _ _ hq1
                obtain ⟨e, he, hp⟩ := hin x hx
                have hqne : q ≠ p.drop rp.length := by
                  intro hc
                  apply hnotin
                  rw [← hc, ← hxp, hp]
                  exact List.mem_map.mpr ⟨e, he, rfl⟩
                rw [hitCount_append]
                rw [hitCount_zero_of_path γ _ _ ?_, Nat.zero_add]
                · exact hexc q hq1
                · intro y hy
                  rw [(hγall y hy).2]
                  exact fun hc => hqne hc.symm
              · intro hlen pth sz text hmem hg hmm
                have hlen' : ((acc ++ γ) ++ δ).length < maxR := by
                  simp only [List.length_append] at hlen ⊢
                  omega
                rcases List.mem_cons.mp hmem with hh | hh
                · exfalso
                  rw [Prod.mk.injEq] at hh
                  apply hm
                  rw [decide_eq_true_eq, ← hh.1]
                  exact hmm
                · rw [hitCount_append, hγf, Nat.zero_add]
                  exact hcapc hlen' pth sz text hh hg hmm
            · obtain ⟨δ, hδ, hin, hle, hexc, hcapc⟩ := ih acc hnd'
              refine ⟨δ, ?_, ?_, hle, hexc, ?_⟩
              · simp only [searchWalk]
                rw [if_neg hcap, if_neg hgit, if_neg hm, if_neg hsc]
                exact hδ
              · intro x hx
                obtain ⟨e, he, hp⟩ := hin x hx
                exact ⟨e, List.mem_cons_of_mem _ he, hp⟩
              · intro hlen pth sz text hmem hg hmm
                rcases List.mem_cons.mp hmem with hh | hh
                · exfalso
                  rw [Prod.mk.injEq] at hh
                  apply hm
                  rw [decide_eq_true_eq, ← hh.1]
                  exact hmm
                · exact hcapc hlen pth sz text hh hg hmm


/-- Two paths below the same root with equal root-relative parts are
equal. -/
theorem drop_prefix_inj (rp a b : List String) (ha : rp <+: a)
    (hb : rp <+: b) (h : a.drop rp.length = b.drop rp.length) : a = b := by
  obtain ⟨ta, rfl⟩ := ha
  obtain ⟨tb, rfl⟩ := hb
  rw [List.drop_left, List.drop_left] at h
  rw [h]

/-- CLAIM C10: in every search over a working copy with duplicate-free
paths, each file path receives at most one `filename`-type result; a
path that received a `filename`-type result never also has a
`content`-type result (its content was not scanned); and when the
result cap was never reached, every visited file (below the root,
outside the control directory) whose filename contains the query
case-insensitively received exactly one `filename`-type result. -/
theorem search_files_filename_exclusive (fs : FS) (base : List String)
    (user_id repo_name : String) (query : String) (sc : Bool) (maxR : Nat)
    (rp : List String) (res : SearchResult)
    (hgp : get_repo_path base user_id repo_name = Except.ok rp)
    (hnd : (fs.map (fun e => e.1)).Nodup)
    (hex : pexists fs rp = true)
    (h : search_files fs base user_id repo_name query sc maxR =
      Except.ok res) :
    (∀ p, hitCount res.results "filename" p ≤ 1) ∧
    (∀ p, 1 ≤ hitCount res.results "filename" p →
      hitCount res.results "content" p = 0) ∧
    (res.results.length < maxR →
      ∀ pth sz text, (pth, Node.file sz text) ∈ fs → rp <+: pth →
        pth ≠ rp → ".git" ∉ pth →
        lowerS query <:+: lowerS (pth.getLastD "") →
        hitCount res.results "filename" (pth.drop rp.length) = 1) := by
  unfold search_files at h
  rw [hgp] at h
  simp only [] at h
  rw [if_neg (by rw [hex]; simp)] at h
  have hfsnd : fs.Nodup := List.Nodup.of_map _ hnd
  have hwsub : (fs.filter (fun e =>
      rp.isPrefixOf e.1 && decide (e.1 ≠ rp))).Sublist fs :=
    List.filter_sublist fs
  have hwnd : (fs.filter (fun e =>
      rp.isPrefixOf e.1 && decide (e.1 ≠ rp))).Nodup :=
    List.Nodup.sublist hwsub hfsnd
  have hrelnd : ((fs.filter (fun e =>
      rp.isPrefixOf e.1 && decide (e.1 ≠ rp))).map
        (fun e => e.1.drop rp.length)).Nodup := by
    apply List.Nodup.map_on ?_ hwnd
    intro x hx y hy hxy
    have hxc := (List.mem_filter.mp hx).2
    have hyc := (List.mem_filter.mp hy).2
    simp only [Bool.and_eq_true, decide_eq_true_eq] at hxc hyc
    have h1 : x.1 = y.1 := drop_prefix_inj rp x.1 y.1
      (List.isPrefixOf_iff_prefix.mp hxc.1)
      (List.isPrefixOf_iff_prefix.mp hyc.1) hxy
    exact List.inj_on_of_nodup_map hnd (hwsub.subset hx)
      (hwsub.subset hy) h1
  obtain ⟨δ, hδ, hin, hle, hexc, hcapc⟩ := searchWalk_spec query.data
    (lowerS query) sc maxR rp
    (fs.filter (fun e => rp.isPrefixOf e.1 && decide (e.1 ≠ rp))) []
    hrelnd
  have hres : res.results = searchWalk query.data (lowerS query) sc maxR
      rp (fs.filter (fun e => rp.isPrefixOf e.1 && decide (e.1 ≠ rp)))
      [] := by
    have h3 := congrArg SearchResult.results (Except.ok.inj h)
    simp only at h3
    exact h3.symm
  rw [hres, hδ, List.nil_append]
  refine ⟨hle, hexc, ?_⟩
  intro hlen pth sz text hmem hpre hne hg hmatch
  apply hcapc
  · simpa using hlen
  · apply List.mem_filter.mpr
    refine ⟨hmem, ?_⟩
    simp [List.isPrefixOf_iff_prefix.mpr hpre, hne]
  · exact hg
  · exact hmatch


/-- CLAIM C10 (witness): searching "match" over a tree containing
`match_file.txt` (name match) and `other.txt` (content match) yields at
most one — here exactly one — `filename` result for `match_file.txt`
and no `content` result for it. -/
theorem search_files_filename_exclusive_witness :
    hitCount
        [{ htype := "filename", path := ["match_file.txt"],
           name := "match_file.txt", mtch := "match_file.txt".data,
           line := none, context := none },
         { htype := "content", path := ["other.txt"], name := "other.txt",
           mtch := "match".data, line := some 1,
           context := some "no match?".data }]
        "filename" ["match_file.txt"] ≤ 1 ∧
    hitCount
        [{ htype := "filename", path := ["match_file.txt"],
           name := "match_file.txt", mtch := "match_file.txt".data,
           line := none, context := none },
         { htype := "content", path := ["other.txt"], name := "other.txt",
           mtch := "match".data, line := some 1,
           context := some "no match?".data }]
        "content" ["match_file.txt"] = 0 ∧
    hitCount
        [{ htype := "filename", path := ["match_file.txt"],
           name := "match_file.txt", mtch := "match_file.txt".data,
           line := none, context := none },
         { htype := "content", path := ["other.txt"], name := "other.txt",
           mtch := "match".data, line := some 1,
           context := some "no match?".data }]
        "filename" ["match_file.txt"] = 1 := by
  have h := search_files_filename_exclusive
    [(["repos"], Node.dir), (["repos", "u"], Node.dir),
     (["repos", "u", "r"], Node.dir),
     (["repos", "u", "r", ".git"], Node.dir),
     (["repos", "u", "r", "match_file.txt"],
       Node.file 10 "a match here".data),
     (["repos", "u", "r", "other.txt"], Node.file 8 "no match?".data)]
    ["repos"] "u" "r" "match" true 50 ["repos", "u", "r"]
    { status := "success", message := none, query := some "match".data,
      total := 2,
      results := [{ htype := "filename", path := ["match_file.txt"],
                    name := "match_file.txt",
                    mtch := "match_file.txt".data,
                    line := none, context := none },
                  { htype := "content", path := ["other.txt"],
                    name := "other.txt", mtch := "match".data,
                    line := some 1,
                    context := some "no match?".data }] }
    (by rfl) (by decide) (by rfl) (by rfl)
  exact ⟨h.1 ["match_file.txt"],
    (fun hc => h.2.1 ["match_file.txt"] hc) (by decide),
    h.2.2 (by decide) ["repos", "u", "r", "match_file.txt"] 10
      "a match here".data (by decide) (by decide) (by decide) (by decide)
      (by decide)⟩


end GitOps
